import Mathlib

/-!  Shallow embedding of the imap-data-access core:
src/imap_data_access/file_validation.py and
src/imap_data_access/processing_input_file.py.

Python exceptions are modelled by an error type returned through Except;
machine state that Python mutates (error message accumulation, collection
contents) is passed explicitly.  Package-level constants and classes that the
repository defines outside src/ (the package init module) are modelled from
the spec and marked as such in their doc comments.
-/

/-- Modelled from the spec: the package-level constant FILENAME_CONVENTION
(defined in the package init module, which is not under src/), the
human-readable grammar template reported by format errors (spec section 4.1). -/
def FILENAME_CONVENTION : String :=
  "<mission>_<instrument>_<datalevel>_<descriptor>_<startdate>_<enddate>_<version>.<extension>"

/-- Modelled from the spec: the package-level constant VALID_INSTRUMENTS, a
fixed enumerated set of mission instruments (spec section 3); members taken
from the source docstring (idex, swe, swapi, hi-45, ultra-45) and the spec
example instrument mag. -/
def VALID_INSTRUMENTS : List String :=
  ["idex", "swe", "swapi", "hi-45", "ultra-45", "mag"]

/-- Modelled from the spec: the package-level constant VALID_DATALEVELS, a
fixed enumerated set of level tags (spec section 3); members taken from the
source docstring (l1a, l1b, l1, l3a) and the raw level l0. -/
def VALID_DATALEVELS : List String :=
  ["l0", "l1", "l1a", "l1b", "l3a"]

/-- Modelled from the spec: the package-level constant VALID_FILE_EXTENSION,
the two permitted archive extensions (spec sections 4.1 and 6). -/
def VALID_FILE_EXTENSION : List String :=
  ["pkts", "cdf"]

/-- The dictionary returned by extract_filename_components
(file_validation.py line 51): one entry per named regex group. -/
structure FilenameComponents where
  mission : String
  instrument : String
  datalevel : String
  descriptor : String
  startdate : String
  enddate : String
  version : String
  extension : String
deriving DecidableEq, Repr

def notUnderscore (c : Char) : Bool := c != '_'

/-- The codepoint ranges of the Unicode general category Nd (decimal digits),
generated from the unicodedata tables of the Python build this repository
runs on. -/
def ndRanges : List (Nat × Nat) :=
  [(48, 57), (1632, 1641), (1776, 1785), (1984, 1993), (2406, 2415),
   (2534, 2543), (2662, 2671), (2790, 2799), (2918, 2927), (3046, 3055),
   (3174, 3183), (3302, 3311), (3430, 3439), (3558, 3567), (3664, 3673),
   (3792, 3801), (3872, 3881), (4160, 4169), (4240, 4249), (6112, 6121),
   (6160, 6169), (6470, 6479), (6608, 6617), (6784, 6793), (6800, 6809),
   (6992, 7001), (7088, 7097), (7232, 7241), (7248, 7257), (42528, 42537),
   (43216, 43225), (43264, 43273), (43472, 43481), (43504, 43513), (43600, 43609),
   (44016, 44025), (65296, 65305), (66720, 66729), (68912, 68921), (69734, 69743),
   (69872, 69881), (69942, 69951), (70096, 70105), (70384, 70393), (70736, 70745),
   (70864, 70873), (71248, 71257), (71360, 71369), (71472, 71481), (71904, 71913),
   (72016, 72025), (72784, 72793), (73040, 73049), (73120, 73129), (92768, 92777),
   (92864, 92873), (93008, 93017), (120782, 120831), (123200, 123209), (123632, 123641),
   (125264, 125273), (130032, 130041)]

/-- The character class written backslash-d in a Python str pattern: any
Unicode decimal digit (category Nd), not only the ASCII digits. -/
def isPythonDigit (c : Char) : Bool :=
  ndRanges.any (fun r => r.1 ≤ c.toNat && c.toNat ≤ r.2)

/-- One regex group of the anchored filename pattern of the shape
non-underscore-run followed by a literal underscore: the run must be
non-empty and stops at the first underscore, which is consumed. -/
def splitField (cs : List Char) : Option (List Char × List Char) :=
  match cs.dropWhile notUnderscore with
  | '_' :: rest =>
      if (cs.takeWhile notUnderscore).isEmpty then none
      else some (cs.takeWhile notUnderscore, rest)
  | _ => none

/-- The regex group of exactly eight digits followed by a literal underscore
(the startdate and enddate groups of file_validation.py lines 36-37); the
digits are the Unicode class backslash-d, not only ASCII. -/
def parseDate8 (cs : List Char) : Option (List Char × List Char) :=
  if (cs.take 8).length == 8 && (cs.take 8).all isPythonDigit then
    match cs.drop 8 with
    | '_' :: rest => some (cs.take 8, rest)
    | _ => none
  else none

/-- The regex tail of file_validation.py lines 38-39: the version group (a v,
two digits, a dash, two digits), a literal dot, the extension group which is
either cdf or pkts, and the dollar anchor.  Python re.match without flags
lets the dollar match at the end of the string or just before one trailing
newline, so the input may carry a single final newline that no group
captures; the returned extension group never contains it. -/
def parseVersionExt (cs : List Char) : Option (List Char × List Char) :=
  match cs with
  | 'v' :: a :: b :: '-' :: c :: d :: '.' :: rest =>
      if isPythonDigit a && isPythonDigit b && isPythonDigit c && isPythonDigit d then
        if rest == ['c', 'd', 'f'] || rest == ['c', 'd', 'f', '\n'] then
          some (['v', a, b, '-', c, d], ['c', 'd', 'f'])
        else if rest == ['p', 'k', 't', 's'] || rest == ['p', 'k', 't', 's', '\n'] then
          some (['v', a, b, '-', c, d], ['p', 'k', 't', 's'])
        else none
      else none
  | _ => none

/-- Embeds the anchored regex of extract_filename_components
(file_validation.py lines 31-39).  The regex is deterministic: each
non-underscore-run group must stop at the next underscore and the date and
version groups have fixed width, so matching is sequential field consumption
with no backtracking alternatives. -/
def matchFilename (cs : List Char) : Option FilenameComponents :=
  match cs with
  | 'i' :: 'm' :: 'a' :: 'p' :: '_' :: r0 =>
      (splitField r0).bind (fun p1 =>
      (splitField p1.2).bind (fun p2 =>
      (splitField p2.2).bind (fun p3 =>
      (parseDate8 p3.2).bind (fun p4 =>
      (parseDate8 p4.2).bind (fun p5 =>
      (parseVersionExt p5.2).map (fun p6 =>
        ⟨"imap", ⟨p1.1⟩, ⟨p2.1⟩, ⟨p3.1⟩, ⟨p4.1⟩, ⟨p5.1⟩, ⟨p6.1⟩, ⟨p6.2⟩⟩))))))
  | _ => none

/-- A Python argument that is either a str or a pathlib.Path (the source
distinguishes them with isinstance). -/
inductive StrOrPath where
  | str (s : String)
  | path (p : String)
deriving DecidableEq, Repr

/-- Models pathlib Path.name for a path without a trailing separator: the
final slash-separated segment. -/
def pathName (p : String) : String :=
  ⟨(p.data.reverse.takeWhile (fun c => c != '/')).reverse⟩

/-- The message of the ValueError raised by extract_filename_components
(file_validation.py lines 46-49). -/
def formatErrorMessage (filename : String) : String :=
  "Filename " ++ filename ++ " does not match expected pattern: " ++ FILENAME_CONVENTION

deriving instance DecidableEq for Except

/-- The Python exceptions this core can raise. -/
inductive PyError where
  | valueError (msg : String)
  | invalidScienceFile (msg : String)
  | keyError (key : String)
  | typeError (msg : String)
deriving DecidableEq, Repr

/-- Embeds extract_filename_components (file_validation.py lines 11-52): a
Path argument is first reduced to its final segment, a str argument is used
as given; the anchored regex either yields all components or the function
raises ValueError carrying the offending string and the grammar template. -/
def extract_filename_components (filename : StrOrPath) : Except PyError FilenameComponents :=
  let name := match filename with
    | .str s => s
    | .path p => pathName p
  match matchFilename name.data with
  | some comp => Except.ok comp
  | none => Except.error (.valueError (formatErrorMessage name))

/-- The filename grammar exactly as the spec states it (sections 4.1 and 6):
mission literal imap, then underscore-separated non-empty instrument,
datalevel and descriptor fields, two eight-digit dates, a version of shape
v digit digit dash digit digit, a single dot and one of the two permitted
extensions, anchored at both ends of the string. -/
def MatchesFilenameGrammar (cs : List Char) : Prop :=
  ∃ (instr dlevel desc sd ed : List Char) (a b c d : Char) (ext : List Char),
    cs = 'i' :: 'm' :: 'a' :: 'p' :: '_' ::
      (instr ++ '_' :: (dlevel ++ '_' :: (desc ++ '_' ::
        (sd ++ '_' :: (ed ++ '_' ::
          ('v' :: a :: b :: '-' :: c :: d :: '.' :: ext)))))) ∧
    instr ≠ [] ∧ (∀ x ∈ instr, x ≠ '_') ∧
    dlevel ≠ [] ∧ (∀ x ∈ dlevel, x ≠ '_') ∧
    desc ≠ [] ∧ (∀ x ∈ desc, x ≠ '_') ∧
    sd.length = 8 ∧ (∀ x ∈ sd, x.isDigit) ∧
    ed.length = 8 ∧ (∀ x ∈ ed, x.isDigit) ∧
    a.isDigit ∧ b.isDigit ∧ c.isDigit ∧ d.isDigit ∧
    (ext = ['c', 'd', 'f'] ∨ ext = ['p', 'k', 't', 's'])

/-- The language the source regex actually accepts under Python re.match
semantics: the grammar shape, but with digits drawn from the Unicode class
backslash-d and with the dollar anchor also matching just before one trailing
newline.  This is strictly larger than the spec grammar above. -/
def MatchesPythonRegex (cs : List Char) : Prop :=
  ∃ (instr dlevel desc sd ed : List Char) (a b c d : Char) (ext tail : List Char),
    cs = 'i' :: 'm' :: 'a' :: 'p' :: '_' ::
      (instr ++ '_' :: (dlevel ++ '_' :: (desc ++ '_' ::
        (sd ++ '_' :: (ed ++ '_' ::
          ('v' :: a :: b :: '-' :: c :: d :: '.' :: (ext ++ tail))))))) ∧
    instr ≠ [] ∧ (∀ x ∈ instr, x ≠ '_') ∧
    dlevel ≠ [] ∧ (∀ x ∈ dlevel, x ≠ '_') ∧
    desc ≠ [] ∧ (∀ x ∈ desc, x ≠ '_') ∧
    sd.length = 8 ∧ (∀ x ∈ sd, isPythonDigit x) ∧
    ed.length = 8 ∧ (∀ x ∈ ed, isPythonDigit x) ∧
    isPythonDigit a ∧ isPythonDigit b ∧ isPythonDigit c ∧ isPythonDigit d ∧
    (ext = ['c', 'd', 'f'] ∨ ext = ['p', 'k', 't', 's']) ∧
    (tail = [] ∨ tail = ['\n'])

theorem splitField_eq_some {cs f r : List Char} :
    splitField cs = some (f, r) ↔
      (cs = f ++ '_' :: r ∧ f ≠ [] ∧ ∀ x ∈ f, x ≠ '_') := by
  constructor
  · intro h
    unfold splitField at h
    split at h
    case _ rest heq =>
      split at h
      case _ => exact absurd h (by simp)
      case _ hne =>
        simp only [Option.some.injEq, Prod.mk.injEq] at h
        obtain ⟨hf, hr⟩ := h
        subst hf
        subst hr
        refine ⟨?_, ?_, ?_⟩
        · conv_lhs => rw [← List.takeWhile_append_dropWhile (p := notUnderscore) (l := cs)]
          rw [heq]
        · intro hnil
          rw [hnil] at hne
          simp at hne
        · intro x hx
          have hxx : notUnderscore x = true := List.mem_takeWhile_imp hx
          exact bne_iff_ne.mp hxx
    case _ => exact absurd h (by simp)
  · rintro ⟨rfl, hne, hmem⟩
    have hall : ∀ x ∈ f, notUnderscore x = true := fun x hx => bne_iff_ne.mpr (hmem x hx)
    have h2 : ¬ notUnderscore '_' = true := by decide
    unfold splitField
    rw [List.dropWhile_append_of_pos hall, List.dropWhile_cons_of_neg h2,
      List.takeWhile_append_of_pos hall, List.takeWhile_cons_of_neg h2]
    simp [List.isEmpty_iff, hne]

theorem parseDate8_eq_some {cs d r : List Char} :
    parseDate8 cs = some (d, r) ↔
      (cs = d ++ '_' :: r ∧ d.length = 8 ∧ ∀ x ∈ d, isPythonDigit x) := by
  constructor
  · intro h
    unfold parseDate8 at h
    split at h
    case _ hcond =>
      simp only [Bool.and_eq_true, beq_iff_eq, List.all_eq_true] at hcond
      split at h
      case _ rest heq =>
        simp only [Option.some.injEq, Prod.mk.injEq] at h
        obtain ⟨hd, hr⟩ := h
        subst hd
        subst hr
        refine ⟨?_, hcond.1, fun x hx => hcond.2 x hx⟩
        conv_lhs => rw [← List.take_append_drop 8 cs]
        rw [heq]
      case _ => exact absurd h (by simp)
    case _ => exact absurd h (by simp)
  · rintro ⟨rfl, hlen, hdig⟩
    have hall : (d.all isPythonDigit) = true := List.all_eq_true.mpr hdig
    unfold parseDate8
    rw [List.take_left' hlen, List.drop_left' hlen]
    simp [hlen, hall]

theorem parseVersionExt_eq_some {cs v e : List Char} :
    parseVersionExt cs = some (v, e) ↔
      ∃ (a b c d : Char) (tail : List Char),
        cs = 'v' :: a :: b :: '-' :: c :: d :: '.' :: (e ++ tail) ∧
        v = ['v', a, b, '-', c, d] ∧
        isPythonDigit a ∧ isPythonDigit b ∧ isPythonDigit c ∧ isPythonDigit d ∧
        (e = ['c', 'd', 'f'] ∨ e = ['p', 'k', 't', 's']) ∧
        (tail = [] ∨ tail = ['\n']) := by
  constructor
  · intro h
    unfold parseVersionExt at h
    split at h
    case _ a b c d rest =>
      split at h
      case _ hdig =>
        simp only [Bool.and_eq_true] at hdig
        split at h
        case _ hc1 =>
          simp only [Bool.or_eq_true, beq_iff_eq] at hc1
          simp only [Option.some.injEq, Prod.mk.injEq] at h
          obtain ⟨hv, he⟩ := h
          subst hv
          subst he
          rcases hc1 with rfl | rfl
          · exact ⟨a, b, c, d, [], by simp, rfl,
              hdig.1.1.1, hdig.1.1.2, hdig.1.2, hdig.2, Or.inl rfl, Or.inl rfl⟩
          · exact ⟨a, b, c, d, ['\n'], by simp, rfl,
              hdig.1.1.1, hdig.1.1.2, hdig.1.2, hdig.2, Or.inl rfl, Or.inr rfl⟩
        case _ hc1 =>
          split at h
          case _ hc2 =>
            simp only [Bool.or_eq_true, beq_iff_eq] at hc2
            simp only [Option.some.injEq, Prod.mk.injEq] at h
            obtain ⟨hv, he⟩ := h
            subst hv
            subst he
            rcases hc2 with rfl | rfl
            · exact ⟨a, b, c, d, [], by simp, rfl,
                hdig.1.1.1, hdig.1.1.2, hdig.1.2, hdig.2, Or.inr rfl, Or.inl rfl⟩
            · exact ⟨a, b, c, d, ['\n'], by simp, rfl,
                hdig.1.1.1, hdig.1.1.2, hdig.1.2, hdig.2, Or.inr rfl, Or.inr rfl⟩
          case _ => exact absurd h (by simp)
      case _ => exact absurd h (by simp)
    case _ => exact absurd h (by simp)
  · rintro ⟨a, b, c, d, tail, rfl, rfl, ha, hb, hc, hd, he, htail⟩
    unfold parseVersionExt
    rcases he with rfl | rfl <;> rcases htail with rfl | rfl <;>
      simp [ha, hb, hc, hd]

theorem matchFilename_eq_some {cs : List Char} {comp : FilenameComponents}
    (h : matchFilename cs = some comp) : MatchesPythonRegex cs := by
  unfold matchFilename at h
  split at h
  case _ r0 =>
    rw [Option.bind_eq_some] at h
    obtain ⟨⟨instr, r1⟩, h1, h⟩ := h
    rw [Option.bind_eq_some] at h
    obtain ⟨⟨dlevel, r2⟩, h2, h⟩ := h
    rw [Option.bind_eq_some] at h
    obtain ⟨⟨desc, r3⟩, h3, h⟩ := h
    rw [Option.bind_eq_some] at h
    obtain ⟨⟨sd, r4⟩, h4, h⟩ := h
    rw [Option.bind_eq_some] at h
    obtain ⟨⟨ed, r5⟩, h5, h⟩ := h
    rw [Option.map_eq_some'] at h
    obtain ⟨⟨ver, ext⟩, h6, h⟩ := h
    obtain ⟨e1, e2, e3⟩ := splitField_eq_some.mp h1
    obtain ⟨f1, f2, f3⟩ := splitField_eq_some.mp h2
    obtain ⟨g1, g2, g3⟩ := splitField_eq_some.mp h3
    obtain ⟨i1, i2, i3⟩ := parseDate8_eq_some.mp h4
    obtain ⟨j1, j2, j3⟩ := parseDate8_eq_some.mp h5
    obtain ⟨a, b, c, d, tail, k1, k2, ka, kb, kc, kd, ke, kt⟩ := parseVersionExt_eq_some.mp h6
    dsimp only at f1 g1 i1 j1 k1
    refine ⟨instr, dlevel, desc, sd, ed, a, b, c, d, ext, tail, ?_,
      e2, e3, f2, f3, g2, g3, i2, i3, j2, j3, ka, kb, kc, kd, ke, kt⟩
    rw [e1, f1, g1, i1, j1, k1]
  case _ => exact absurd h (by simp)

theorem matchFilename_of_regex {cs : List Char}
    (h : MatchesPythonRegex cs) : ∃ comp, matchFilename cs = some comp := by
  obtain ⟨instr, dlevel, desc, sd, ed, a, b, c, d, ext, tail, hcs,
    hi1, hi2, hd1, hd2, hde1, hde2, hs1, hs2, he1, he2, ha, hb, hc, hd', hext, htail⟩ := h
  subst hcs
  refine ⟨⟨"imap", ⟨instr⟩, ⟨dlevel⟩, ⟨desc⟩, ⟨sd⟩, ⟨ed⟩,
    ⟨['v', a, b, '-', c, d]⟩, ⟨ext⟩⟩, ?_⟩
  simp only [matchFilename]
  simp only [splitField_eq_some.mpr ⟨rfl, hi1, hi2⟩, Option.some_bind]
  simp only [splitField_eq_some.mpr ⟨rfl, hd1, hd2⟩, Option.some_bind]
  simp only [splitField_eq_some.mpr ⟨rfl, hde1, hde2⟩, Option.some_bind]
  simp only [parseDate8_eq_some.mpr ⟨rfl, hs1, hs2⟩, Option.some_bind]
  simp only [parseDate8_eq_some.mpr ⟨rfl, he1, he2⟩, Option.some_bind]
  simp only [parseVersionExt_eq_some.mpr ⟨a, b, c, d, tail, rfl, rfl, ha, hb, hc, hd', hext, htail⟩,
    Option.map_some']

/-- A Python datetime truncated to its calendar-date fields, which are the
only fields this code ever sets or compares. -/
structure PyDate where
  year : Nat
  month : Nat
  day : Nat
deriving DecidableEq, Repr

/-- Gregorian leap-year rule, as implemented by the Python datetime module. -/
def isLeapYear (y : Nat) : Bool := (y % 4 == 0 && y % 100 != 0) || y % 400 == 0

def daysInMonth (y m : Nat) : Nat :=
  if m == 2 then (if isLeapYear y then 29 else 28)
  else if m == 4 || m == 6 || m == 9 || m == 11 then 30
  else 31

def digitVal (c : Char) : Nat := c.toNat - 48

/-- Models datetime.strptime(s, percent-Y percent-m percent-d) on
eight-character inputs, the only shape the anchored filename regex can feed
it: four digits of year, two of month, two of day, checked to form a real
calendar date (datetime also requires year at least 1).  Python strptime
additionally accepts some shorter strings with a one-digit month or day and
strings of non-ASCII Unicode digits; no ASCII-named archive file produces
either, and the approximation is recorded here rather than modelled. -/
def strptimeYmd (s : String) : Option PyDate :=
  match s.data with
  | [y1, y2, y3, y4, m1, m2, d1, d2] =>
      if y1.isDigit && y2.isDigit && y3.isDigit && y4.isDigit &&
          m1.isDigit && m2.isDigit && d1.isDigit && d2.isDigit then
        if 1 ≤ ((digitVal y1 * 10 + digitVal y2) * 10 + digitVal y3) * 10 + digitVal y4 &&
            1 ≤ digitVal m1 * 10 + digitVal m2 && digitVal m1 * 10 + digitVal m2 ≤ 12 &&
            1 ≤ digitVal d1 * 10 + digitVal d2 &&
            digitVal d1 * 10 + digitVal d2 ≤
              daysInMonth (((digitVal y1 * 10 + digitVal y2) * 10 + digitVal y3) * 10 + digitVal y4)
                (digitVal m1 * 10 + digitVal m2) then
          some ⟨((digitVal y1 * 10 + digitVal y2) * 10 + digitVal y3) * 10 + digitVal y4,
            digitVal m1 * 10 + digitVal m2, digitVal d1 * 10 + digitVal d2⟩
        else none
      else none
  | _ => none

/-- Embeds the static method ScienceFilepathManager.is_valid_date
(file_validation.py lines 205-227): try strptime and report success. -/
def is_valid_date (input_date : String) : Bool := (strptimeYmd input_date).isSome

/-- Python datetime comparison restricted to dates: lexicographic on
year, month, day. -/
def PyDate.Lt (a b : PyDate) : Prop :=
  a.year < b.year ∨ (a.year = b.year ∧
    (a.month < b.month ∨ (a.month = b.month ∧ a.day < b.day)))

instance (a b : PyDate) : Decidable (PyDate.Lt a b) := by
  unfold PyDate.Lt
  infer_instance

def PyDate.Le (a b : PyDate) : Prop := PyDate.Lt a b ∨ a = b

instance (a b : PyDate) : Decidable (PyDate.Le a b) := by
  unfold PyDate.Le
  infer_instance

theorem PyDate.le_refl (a : PyDate) : PyDate.Le a a := Or.inr rfl

theorem PyDate.le_of_lt {a b : PyDate} (h : PyDate.Lt a b) : PyDate.Le a b := Or.inl h

theorem PyDate.le_of_not_lt {a b : PyDate} (h : ¬ PyDate.Lt a b) : PyDate.Le b a := by
  cases a
  cases b
  simp only [PyDate.Lt, PyDate.Le, PyDate.mk.injEq] at *
  omega

theorem PyDate.le_trans {a b c : PyDate} (h1 : PyDate.Le a b) (h2 : PyDate.Le b c) :
    PyDate.Le a c := by
  cases a
  cases b
  cases c
  simp only [PyDate.Lt, PyDate.Le, PyDate.mk.injEq] at *
  omega

/-- The attributes ScienceFilepathManager.__init__ stores
(file_validation.py lines 118-135). -/
structure ScienceFilepathManager where
  filename : String
  mission : String
  instrument : String
  data_level : String
  descriptor : String
  startdate : String
  enddate : String
  version : String
  extension : String
deriving DecidableEq, Repr

/-- Modelled from the spec: the package init module (not under src/) exports
the manager as ScienceFilePath with the parsed start date readable as
start_date; in src/ the attribute is spelled startdate. -/
def ScienceFilepathManager.start_date (m : ScienceFilepathManager) : String := m.startdate

/-- The regex check applied to the version attribute in validate_filename
(file_validation.py line 191): anchored v, two digits, dash, two digits. -/
def isVersionFormat (s : String) : Bool :=
  match s.data with
  | ['v', a, b, '-', c, d] => a.isDigit && b.isDigit && c.isDigit && d.isDigit
  | _ => false

/-- The eight conditionally appended blocks of validate_filename
(file_validation.py lines 155-201), in source order. -/
inductive Violation where
  | missingAttribute
  | badMission
  | badInstrument
  | badDataLevel
  | badStartDate
  | badEndDate
  | badVersion
  | badExtension
deriving DecidableEq, Repr

/-- The condition guarding each append of validate_filename, transcribed from
file_validation.py lines 155-197 (attributes cannot be None once the regex
matched, so the missing-attribute test reduces to emptiness). -/
def violationHolds (m : ScienceFilepathManager) : Violation → Bool
  | .missingAttribute =>
      m.mission == "" || m.instrument == "" || m.data_level == "" || m.descriptor == "" ||
      m.startdate == "" || m.enddate == "" || m.version == "" || m.extension == ""
  | .badMission => m.mission != "imap"
  | .badInstrument => !(VALID_INSTRUMENTS.contains m.instrument)
  | .badDataLevel => !(VALID_DATALEVELS.contains m.data_level)
  | .badStartDate => !(is_valid_date m.startdate)
  | .badEndDate => !(is_valid_date m.enddate)
  | .badVersion => !(isVersionFormat m.version)
  | .badExtension =>
      !(VALID_FILE_EXTENSION.contains m.extension) ||
      ((m.data_level == "l0" && m.extension != "pkts") ||
       (m.data_level != "l0" && m.extension != "cdf"))

/-- A single-quote character, written by code point to keep the file free of
quote literals. -/
def singleQuote : String := ⟨[Char.ofNat 39]⟩

/-- How a Python f-string renders a list of str values, used by the
instrument and data-level messages of validate_filename. -/
def pyStrListRepr (l : List String) : String :=
  "[" ++ String.intercalate ", " (l.map (fun s => singleQuote ++ s ++ singleQuote)) ++ "]"

/-- The message appended by each failed check of validate_filename,
transcribed from file_validation.py lines 168-201. -/
def violationMessage (m : ScienceFilepathManager) : Violation → String
  | .missingAttribute =>
      "Invalid filename, missing attribute. Filename convention is " ++
        FILENAME_CONVENTION ++ " \n"
  | .badMission => "Invalid mission " ++ m.mission ++ ". Please use imap \n"
  | .badInstrument =>
      "Invalid instrument " ++ m.instrument ++ ". Please choose from " ++
        pyStrListRepr VALID_INSTRUMENTS ++ " \n"
  | .badDataLevel =>
      "Invalid data level " ++ m.data_level ++ ". Please choose from " ++
        pyStrListRepr VALID_DATALEVELS ++ " \n"
  | .badStartDate => "Invalid start date format. Please use YYYYMMDD format. \n"
  | .badEndDate => "Invalid end date format. Please use YYYYMMDD format. \n"
  | .badVersion => "Invalid version format. Please use vxx-xx format. \n"
  | .badExtension =>
      "Invalid extension. Extension should be pkts for data level l0 and cdf for data level higher than l0 \n"

/-- The checks of validate_filename in the order the source performs them. -/
def allChecks : List Violation :=
  [.missingAttribute, .badMission, .badInstrument, .badDataLevel,
   .badStartDate, .badEndDate, .badVersion, .badExtension]

/-- The checks that fail for a given manager, in source order. -/
def violations (m : ScienceFilepathManager) : List Violation :=
  allChecks.filter (violationHolds m)

/-- Concatenation of a list of strings in order (Python += accumulation). -/
def joinAll : List String → String
  | [] => ""
  | s :: rest => s ++ joinAll rest

/-- Embeds validate_filename (file_validation.py lines 141-203): the method
starts from the empty message and conditionally appends, in source order, the
message of every check that fails, so the result is exactly the concatenation
of the messages of the failed checks. -/
def ScienceFilepathManager.validate_filename (m : ScienceFilepathManager) : String :=
  joinAll ((violations m).map (violationMessage m))

/-- The attribute assignment block of ScienceFilepathManager.__init__
(file_validation.py lines 128-135). -/
def managerOfComponents (filename : String) (c : FilenameComponents) : ScienceFilepathManager :=
  { filename := filename, mission := c.mission, instrument := c.instrument,
    data_level := c.datalevel, descriptor := c.descriptor, startdate := c.startdate,
    enddate := c.enddate, version := c.version, extension := c.extension }

/-- The str rendering of the filename argument kept in self.filename. -/
def StrOrPath.render : StrOrPath → String
  | .str s => s
  | .path p => p

/-- Embeds ScienceFilepathManager.__init__ (file_validation.py lines 93-139):
extract components (wrapping a parse failure into InvalidScienceFileError with
the fixed message of lines 123-126), store the attributes, then run
validate_filename and raise InvalidScienceFileError with the accumulated
message when it is non-empty. -/
def ScienceFilepathManager.make (filename : StrOrPath) : Except PyError ScienceFilepathManager :=
  match extract_filename_components filename with
  | .error _ =>
      .error (.invalidScienceFile
        ("Invalid filename. Expected file to match format: " ++ FILENAME_CONVENTION))
  | .ok c =>
      if (managerOfComponents filename.render c).validate_filename == "" then
        .ok (managerOfComponents filename.render c)
      else
        .error (.invalidScienceFile (managerOfComponents filename.render c).validate_filename)

/-- Embeds ScienceFilepathManager.upload_path (file_validation.py lines
229-242): the f-string joining mission, instrument, data level, the first
four and next two characters of the start date, and the stored filename. -/
def ScienceFilepathManager.upload_path (m : ScienceFilepathManager) : String :=
  m.mission ++ "/" ++ m.instrument ++ "/" ++ m.data_level ++ "/" ++
    (m.startdate.take 4) ++ "/" ++ ((m.startdate.drop 4).take 2) ++ "/" ++ m.filename

theorem length_pos_append (a b : String) (h : 0 < a.length) : 0 < (a ++ b).length := by
  rw [String.length_append]
  omega

theorem ne_empty_of_length_pos {a : String} (h : 0 < a.length) : a ≠ "" := by
  intro he
  rw [he] at h
  exact absurd h (by decide)

theorem violationMessage_ne_empty (m : ScienceFilepathManager) (v : Violation) :
    violationMessage m v ≠ "" := by
  cases v
  case missingAttribute =>
    exact ne_empty_of_length_pos (length_pos_append _ _ (length_pos_append _ _ (by decide)))
  case badMission =>
    exact ne_empty_of_length_pos (length_pos_append _ _ (length_pos_append _ _ (by decide)))
  case badInstrument =>
    exact ne_empty_of_length_pos (length_pos_append _ _ (length_pos_append _ _
      (length_pos_append _ _ (length_pos_append _ _ (by decide)))))
  case badDataLevel =>
    exact ne_empty_of_length_pos (length_pos_append _ _ (length_pos_append _ _
      (length_pos_append _ _ (length_pos_append _ _ (by decide)))))
  case badStartDate => simp [violationMessage]
  case badEndDate => simp [violationMessage]
  case badVersion => simp [violationMessage]
  case badExtension => simp [violationMessage]

theorem joinAll_eq_empty {l : List String} :
    joinAll l = "" ↔ ∀ s ∈ l, s = "" := by
  induction l with
  | nil => simp [joinAll]
  | cons a rest ih =>
      simp only [joinAll, List.mem_cons]
      constructor
      · intro h
        have hd := congrArg String.data h
        rw [String.data_append] at hd
        have h0 : String.data "" = [] := rfl
        rw [h0] at hd
        obtain ⟨ha, hrest⟩ := List.append_eq_nil.mp hd
        have ha' : a = "" := String.ext ha
        have hrest' : joinAll rest = "" := String.ext hrest
        intro s hs
        rcases hs with rfl | hs
        · exact ha'
        · exact ih.mp hrest' s hs
      · intro h
        have ha : a = "" := h a (Or.inl rfl)
        have hrest : joinAll rest = "" := ih.mpr (fun s hs => h s (Or.inr hs))
        rw [ha, hrest]
        rfl

theorem validate_eq_empty_iff (m : ScienceFilepathManager) :
    m.validate_filename = "" ↔ violations m = [] := by
  unfold ScienceFilepathManager.validate_filename
  constructor
  · intro h
    have hall := joinAll_eq_empty.mp h
    by_contra hne
    obtain ⟨v, hv⟩ := List.exists_mem_of_ne_nil _ hne
    exact violationMessage_ne_empty m v (hall _ (List.mem_map_of_mem _ hv))
  · intro h
    rw [h]
    rfl

theorem violations_eq_nil_iff (m : ScienceFilepathManager) :
    violations m = [] ↔ ∀ v, violationHolds m v = false := by
  unfold violations
  rw [List.filter_eq_nil_iff]
  constructor
  · intro h v
    have hv : v ∈ allChecks := by cases v <;> decide
    exact Bool.not_eq_true _ ▸ (by simpa using h v hv)
  · intro h v _
    simp [h v]

theorem is_valid_date_ne_empty {s : String} (h : is_valid_date s = true) : s ≠ "" := by
  intro he
  rw [he] at h
  exact absurd h (by decide)

theorem isVersionFormat_ne_empty {s : String} (h : isVersionFormat s = true) : s ≠ "" := by
  intro he
  rw [he] at h
  exact absurd h (by decide)

theorem mem_valid_instruments_ne_empty {s : String} (h : s ∈ VALID_INSTRUMENTS) : s ≠ "" := by
  fin_cases h <;> decide

theorem mem_valid_datalevels_ne_empty {s : String} (h : s ∈ VALID_DATALEVELS) : s ≠ "" := by
  fin_cases h <;> decide

/-- Claim C5: with every other field legal, validation of a science filename
succeeds with extension pkts and fails with extension cdf when the data level
is l0, and succeeds with cdf and fails with pkts for any other data level. -/
theorem validate_level_extension_pairing (m : ScienceFilepathManager)
    (hmis : m.mission = "imap")
    (hin : m.instrument ∈ VALID_INSTRUMENTS)
    (hdl : m.data_level ∈ VALID_DATALEVELS)
    (hdesc : m.descriptor ≠ "")
    (hsd : is_valid_date m.startdate = true)
    (hed : is_valid_date m.enddate = true)
    (hver : isVersionFormat m.version = true) :
    (m.data_level = "l0" → (m.validate_filename = "" ↔ m.extension = "pkts")) ∧
    (m.data_level ≠ "l0" → (m.validate_filename = "" ↔ m.extension = "cdf")) := by
  have hinne := mem_valid_instruments_ne_empty hin
  have hdlne := mem_valid_datalevels_ne_empty hdl
  have hsdne := is_valid_date_ne_empty hsd
  have hedne := is_valid_date_ne_empty hed
  have hvne := isVersionFormat_ne_empty hver
  rw [validate_eq_empty_iff, violations_eq_nil_iff]
  constructor
  · intro hl0
    constructor
    · intro h
      by_contra hne
      have hbad : violationHolds m .badExtension = true := by
        simp [violationHolds, hl0, bne_iff_ne, hne]
      rw [h .badExtension] at hbad
      exact absurd hbad (by decide)
    · intro hext v
      cases v <;>
        simp [violationHolds, hmis, hl0, hext, hin, hdl, hsd, hed, hver,
          hinne, hdlne, hdesc, hsdne, hedne, hvne, VALID_FILE_EXTENSION, VALID_DATALEVELS]
  · intro hnl0
    constructor
    · intro h
      by_contra hne
      have hbad : violationHolds m .badExtension = true := by
        simp [violationHolds, bne_iff_ne, hne, hnl0]
      rw [h .badExtension] at hbad
      exact absurd hbad (by decide)
    · intro hext v
      have hl0f : (m.data_level == "l0") = false := by
        simp [hnl0]
      cases v <;>
        simp [violationHolds, hmis, hl0f, hext, hin, hdl, hsd, hed, hver,
          hinne, hdlne, hdesc, hsdne, hedne, hvne, VALID_FILE_EXTENSION]

theorem sfm_make_ok {x : StrOrPath} {m : ScienceFilepathManager}
    (h : ScienceFilepathManager.make x = .ok m) :
    ∃ c, extract_filename_components x = .ok c ∧
      m = managerOfComponents x.render c ∧ m.validate_filename = "" := by
  unfold ScienceFilepathManager.make at h
  split at h
  case _ => exact absurd h (by simp)
  case _ c heq =>
    split at h
    case _ hval =>
      simp only [Except.ok.injEq] at h
      subst h
      exact ⟨c, heq, rfl, by simpa using hval⟩
    case _ => exact absurd h (by simp)

/-- Claim C3: for every string filename accepted by validation, the storage
path is mission, instrument, data level, the year and month sliced from the
start date, and the filename, joined by slashes; it is computed by a total
function of the validated fields, so byte-identical filenames give
byte-identical paths. -/
theorem c3_storage_path (s : String) (m : ScienceFilepathManager)
    (h : ScienceFilepathManager.make (.str s) = .ok m) :
    ∃ c, extract_filename_components (.str s) = .ok c ∧
      m.upload_path =
        c.mission ++ "/" ++ c.instrument ++ "/" ++ c.datalevel ++ "/" ++
        (c.startdate.take 4) ++ "/" ++ ((c.startdate.drop 4).take 2) ++ "/" ++ s := by
  obtain ⟨c, hc, hm, _⟩ := sfm_make_ok h
  subst hm
  exact ⟨c, hc, rfl⟩

/-- Claim C6: when the grammar matched but field checks fail, construction
fails with one composite message that is the concatenation, in source order,
of the message of every failed check, and a check message is reported exactly
when its domain rule is violated. -/
theorem make_reports_all_violations (s : String) (c : FilenameComponents)
    (hp : extract_filename_components (.str s) = .ok c)
    (hv : violations (managerOfComponents s c) ≠ []) :
    ScienceFilepathManager.make (.str s) =
      .error (.invalidScienceFile (joinAll ((violations (managerOfComponents s c)).map
        (violationMessage (managerOfComponents s c))))) ∧
    ∀ v : Violation, v ∈ violations (managerOfComponents s c) ↔
      violationHolds (managerOfComponents s c) v = true := by
  have hvne : (managerOfComponents s c).validate_filename ≠ "" :=
    fun he => hv ((validate_eq_empty_iff _).mp he)
  have hbeq : ((managerOfComponents s c).validate_filename == "") = false :=
    beq_eq_false_iff_ne.mpr hvne
  constructor
  · simp only [ScienceFilepathManager.make, hp, StrOrPath.render, hbeq, Bool.false_eq_true,
      if_false]
    rfl
  · intro v
    unfold violations
    rw [List.mem_filter]
    constructor
    · exact fun h => h.2
    · intro h
      exact ⟨by cases v <;> decide, h⟩

/-- Every string the spec grammar accepts ends in the letter f (extension
cdf) or s (extension pkts): the grammar is anchored with no trailing
characters. -/
theorem grammar_ends_with_ext {cs : List Char} (h : MatchesFilenameGrammar cs) :
    cs.getLast? = some 'f' ∨ cs.getLast? = some 's' := by
  obtain ⟨instr, dlevel, desc, sd, ed, a, b, c, d, ext, hcs,
    _, _, _, _, _, _, _, _, _, _, _, _, _, _, hext⟩ := h
  subst hcs
  rcases hext with rfl | rfl
  · left
    have hsplit : 'i' :: 'm' :: 'a' :: 'p' :: '_' ::
        (instr ++ '_' :: (dlevel ++ '_' :: (desc ++ '_' ::
          (sd ++ '_' :: (ed ++ '_' ::
            ('v' :: a :: b :: '-' :: c :: d :: '.' :: ['c', 'd', 'f'])))))) =
        ('i' :: 'm' :: 'a' :: 'p' :: '_' ::
          (instr ++ '_' :: (dlevel ++ '_' :: (desc ++ '_' ::
            (sd ++ '_' :: (ed ++ '_' :: ['v', a, b, '-', c, d, '.'])))))) ++
          ['c', 'd', 'f'] := by
      simp
    rw [hsplit, List.getLast?_append_of_ne_nil _ (by simp)]
    rfl
  · right
    have hsplit : 'i' :: 'm' :: 'a' :: 'p' :: '_' ::
        (instr ++ '_' :: (dlevel ++ '_' :: (desc ++ '_' ::
          (sd ++ '_' :: (ed ++ '_' ::
            ('v' :: a :: b :: '-' :: c :: d :: '.' :: ['p', 'k', 't', 's'])))))) =
        ('i' :: 'm' :: 'a' :: 'p' :: '_' ::
          (instr ++ '_' :: (dlevel ++ '_' :: (desc ++ '_' ::
            (sd ++ '_' :: (ed ++ '_' :: ['v', a, b, '-', c, d, '.'])))))) ++
          ['p', 'k', 't', 's'] := by
      simp
    rw [hsplit, List.getLast?_append_of_ne_nil _ (by simp)]
    rfl

/-- Claim C2: refuted by the source regex itself.  Its dollar anchor, under
Python re.match semantics, also matches just before one trailing newline, so
the program parses a newline-terminated filename into a full component
dictionary although the string does not match the spec grammar (bit-exact,
no trailing characters) and the claim requires the format ValueError there. -/
theorem extract_accepts_trailing_newline :
    extract_filename_components
        (.str ("imap_mag_l1a_burst_20210101_20210102_v01-01.cdf" ++ "\n")) =
      .ok ⟨"imap", "mag", "l1a", "burst", "20210101", "20210102", "v01-01", "cdf"⟩ ∧
    ¬ MatchesFilenameGrammar
        ("imap_mag_l1a_burst_20210101_20210102_v01-01.cdf" ++ "\n").data := by
  constructor
  · decide
  · intro h
    have hlast := grammar_ends_with_ext h
    rw [(by decide :
      ("imap_mag_l1a_burst_20210101_20210102_v01-01.cdf" ++ "\n").data.getLast? =
        some '\n')] at hlast
    rcases hlast with h1 | h1 <;> exact absurd h1 (by decide)
/-- The kind tags of ProcessingInputType (processing_input_file.py lines
13-16). -/
inductive ProcessingInputType where
  | science
  | ancillary
  | spice
deriving DecidableEq, Repr

/-- The wire value of each kind tag (processing_input_file.py lines 13-16). -/
def ProcessingInputType.value : ProcessingInputType → String
  | .science => "science"
  | .ancillary => "ancillary"
  | .spice => "spice"

/-- Modelled from the spec: the AncillaryFilePath validator, which the package
exports but src/ does not define (processing_input_file.py imports it from the
package init module).  Spec section 3: looser descriptor and date rules, a
single date or a date range; the scheme has underscore-separated mission,
instrument, descriptor, dates (one eight-digit date, or two joined by a dash)
and a version-extension tail. -/
structure AncillaryFilePath where
  instrument : String
  descriptor : String
  start_date : String
  end_date : Option String
deriving DecidableEq, Repr

/-- Splitting a character list at every occurrence of a separator, with the
semantics of the Python str.split method on a one-character separator. -/
def splitOnChar (sep : Char) : List Char → List (List Char)
  | [] => [[]]
  | c :: rest =>
      match splitOnChar sep rest with
      | [] => if c == sep then [[], [c]] else [[c]]
      | g :: gs => if c == sep then [] :: g :: gs else (c :: g) :: gs

def eightDigits (s : List Char) : Bool := s.length == 8 && s.all Char.isDigit

/-- Modelled from the spec: constructing an AncillaryFilePath validates the
looser ancillary scheme and fails on any malformed name. -/
def AncillaryFilePath.make (filename : String) : Except PyError AncillaryFilePath :=
  match splitOnChar '_' filename.data with
  | [m, instr, desc, dates, verExt] =>
      if m == "imap".data && instr != [] && desc != [] && verExt.contains '.' then
        match splitOnChar '-' dates with
        | [sd] =>
            if eightDigits sd then .ok ⟨⟨instr⟩, ⟨desc⟩, ⟨sd⟩, none⟩
            else .error (.valueError ("Invalid ancillary filename " ++ filename))
        | [sd, ed] =>
            if eightDigits sd && eightDigits ed then .ok ⟨⟨instr⟩, ⟨desc⟩, ⟨sd⟩, some ⟨ed⟩⟩
            else .error (.valueError ("Invalid ancillary filename " ++ filename))
        | _ => .error (.valueError ("Invalid ancillary filename " ++ filename))
      else .error (.valueError ("Invalid ancillary filename " ++ filename))
  | _ => .error (.valueError ("Invalid ancillary filename " ++ filename))

/-- One iteration of the loop of ProcessingInput._set_attributes_from_filenames
(processing_input_file.py lines 111-120): run the path validator of the input
type on one filename and read off the values added to the source, data_type
and descriptor sets (for non-science types the data_type added is the kind
tag itself). -/
def sourceTriple (ty : ProcessingInputType) (file : String) :
    Except PyError (String × String × String) :=
  match ty with
  | .science =>
      (ScienceFilepathManager.make (.str file)).map
        (fun v => (v.instrument, v.data_level, v.descriptor))
  | .ancillary =>
      (AncillaryFilePath.make file).map
        (fun v => (v.instrument, ProcessingInputType.ancillary.value, v.descriptor))
  | .spice =>
      -- Unreachable: SpiceInput overrides _set_attributes_from_filenames
      -- (processing_input_file.py lines 236-247), so the base loop never runs
      -- for spice inputs and the SPICEFilePath validator is never consulted.
      .error (.typeError "unreachable for spice inputs")

/-- The loop of _set_attributes_from_filenames over the filename list, in
order, stopping at the first validator failure. -/
def collectTriples (ty : ProcessingInputType) : List String →
    Except PyError (List (String × String × String))
  | [] => .ok []
  | f :: rest =>
      (sourceTriple ty f).bind (fun t =>
        (collectTriples ty rest).map (fun ts => t :: ts))

/-- The ValueError of the homogeneity check (processing_input_file.py lines
122-124). -/
def homogeneityError : PyError :=
  .valueError "All files must have the same source, data type, and descriptor."

/-- The ValueError of the empty-argument check (processing_input_file.py
line 79). -/
def emptyInputError : PyError :=
  .valueError "At least one file must be provided."

/-- Embeds ProcessingInput._set_attributes_from_filenames
(processing_input_file.py lines 97-129): validate every file, collect the
Python sets of sources, data types and descriptors (a set holds the distinct
values, here first occurrences in order), require each set to be a singleton
and pop its unique element. -/
def setAttributesFromFilenames (ty : ProcessingInputType) (files : List String) :
    Except PyError (String × String × String) :=
  (collectTriples ty files).bind (fun ts =>
    if ((ts.map (fun t => t.1)).dedup.length == 1 &&
        (ts.map (fun t => t.2.1)).dedup.length == 1 &&
        (ts.map (fun t => t.2.2)).dedup.length == 1) then
      .ok ((ts.map (fun t => t.1)).dedup.headD "",
        (ts.map (fun t => t.2.1)).dedup.headD "",
        (ts.map (fun t => t.2.2)).dedup.headD "")
    else .error homogeneityError)

/-- An in-memory ProcessingInput: the kind tag, the stored filename list and
the three derived attributes. -/
structure ProcessingInput where
  input_type : ProcessingInputType
  filename_list : List String
  source : String
  data_type : String
  descriptor : String
deriving DecidableEq, Repr

/-- Embeds ProcessingInput.__init__ together with the subclass constructors
(processing_input_file.py lines 60-79, 161-163, 189-191, 232-247): the
filename list is stored (arguments are strings by typing), then
_set_attributes_from_filenames runs (for SpiceInput the override assigns the
three constants and never fails), and only then the empty-argument check
runs, which for ScienceInput and AncillaryInput is unreachable because the
homogeneity check already rejected an empty list. -/
def ProcessingInput.make (ty : ProcessingInputType) (files : List String) :
    Except PyError ProcessingInput :=
  match ty with
  | .spice =>
      if files.length < 1 then .error emptyInputError
      else .ok ⟨.spice, files, "sc_attitude", "spice", "predict"⟩
  | _ =>
      (setAttributesFromFilenames ty files).bind (fun t =>
        if files.length < 1 then .error emptyInputError
        else .ok ⟨ty, files, t.1, t.2.1, t.2.2⟩)

def ScienceInput.make (files : List String) : Except PyError ProcessingInput :=
  ProcessingInput.make .science files

def AncillaryInput.make (files : List String) : Except PyError ProcessingInput :=
  ProcessingInput.make .ancillary files

def SpiceInput.make (files : List String) : Except PyError ProcessingInput :=
  ProcessingInput.make .spice files

/-- One update of the earliest and latest accumulators in
ScienceInput.get_time_range (processing_input_file.py lines 174-177). -/
def updateRange (acc : Option PyDate × Option PyDate) (d : PyDate) :
    Option PyDate × Option PyDate :=
  ( match acc.1 with
    | none => some d
    | some e => if PyDate.Lt d e then some d else some e,
    match acc.2 with
    | none => some d
    | some l => if PyDate.Lt l d then some d else some l )

/-- The loop body of ScienceInput.get_time_range for one filename
(processing_input_file.py lines 171-177): rebuild the science path validator
and parse its start date with strptime. -/
def stepDate (file : String) : Except PyError PyDate :=
  (ScienceFilepathManager.make (.str file)).bind (fun fp =>
    match strptimeYmd fp.start_date with
    | some d => .ok d
    | none =>
        .error (.valueError ("time data " ++ fp.start_date ++
          " does not match format YmD")))

/-- Embeds ScienceInput.get_time_range (processing_input_file.py lines
165-178): fold the date of every stored filename into the earliest and
latest accumulators, both starting at None. -/
def ScienceInput.get_time_range (pi : ProcessingInput) :
    Except PyError (Option PyDate × Option PyDate) :=
  pi.filename_list.foldlM
    (fun acc file => (stepDate file).map (fun d => updateRange acc d))
    (none, none)

/-- The start date a filename contributes to the science time range, read
from its parsed components. -/
def startDateOf (file : String) : Option PyDate :=
  match extract_filename_components (.str file) with
  | .ok c => strptimeYmd c.startdate
  | .error _ => none

/-- A JSON value as json.loads and json.dumps see it; only the shapes this
wire format uses are distinguished, everything else is grouped as other. -/
inductive JsonVal where
  | str (s : String)
  | arr (elems : List JsonVal)
  | obj (fields : List (String × JsonVal))
  | other

/-- Python dict lookup on a decoded JSON object (keys are unique in the wire
format this code emits). -/
def lookupKey (fields : List (String × JsonVal)) (k : String) : Option JsonVal :=
  (fields.find? (fun kv => kv.1 == k)).map (fun kv => kv.2)

/-- An ordered collection of processing inputs
(processing_input_file.py lines 253-283). -/
structure ProcessingInputCollection where
  processing_input : List ProcessingInput
deriving DecidableEq, Repr

/-- Embeds ProcessingInput.construct_json_output (processing_input_file.py
lines 131-141): the kind tag under the key type and the ordered filename list
under the key files. -/
def ProcessingInput.construct_json_output (pi : ProcessingInput) : JsonVal :=
  .obj [("type", .str pi.input_type.value), ("files", .arr (pi.filename_list.map JsonVal.str))]

/-- Embeds ProcessingInputCollection.serialize (processing_input_file.py
lines 299-312) at the JSON-value level: json.dumps renders this value as the
wire string, and json.loads of that string returns this value again, so the
wire string is modelled by its decoded JSON value. -/
def ProcessingInputCollection.serialize (col : ProcessingInputCollection) : JsonVal :=
  .arr (col.processing_input.map ProcessingInput.construct_json_output)

/-- The per-filename isinstance check of ProcessingInput.__init__
(processing_input_file.py lines 73-76), applied in order to the unpacked
wire arguments before any attribute is derived. -/
def asStringArgs : List JsonVal → Except PyError (List String)
  | [] => .ok []
  | .str s :: rest => (asStringArgs rest).map (fun tail => s :: tail)
  | _ :: _ => .error (.valueError "All arguments must be strings")

/-- One constructor call of deserialize (processing_input_file.py lines
327-332): read the entry under the key path (a KeyError, since serialize
wrote the list under the key files), unpack it as constructor arguments and
build the ProcessingInput of the dispatched kind. -/
def deserializeOne (ty : ProcessingInputType) (fields : List (String × JsonVal)) :
    Except PyError ProcessingInput :=
  match lookupKey fields "path" with
  | none => .error (.keyError "path")
  | some (.arr elems) =>
      (asStringArgs elems).bind (fun args => ProcessingInput.make ty args)
  | some _ => .error (.typeError "argument unpacking requires a sequence")

/-- The entry loop of ProcessingInputCollection.deserialize
(processing_input_file.py lines 326-332): dispatch on the kind tag under the
key type; an entry whose tag equals none of the three literals falls through
every branch and is skipped; a non-string tag compares unequal to all three
literals and is skipped the same way. -/
def deserializeEntries : List JsonVal → Except PyError (List ProcessingInput)
  | [] => .ok []
  | .obj fields :: rest =>
      (match lookupKey fields "type" with
       | none => .error (.keyError "type")
       | some (.str t) =>
           if t == "science" then
             (deserializeOne .science fields).bind (fun pi =>
               (deserializeEntries rest).map (fun tail => pi :: tail))
           else if t == "ancillary" then
             (deserializeOne .ancillary fields).bind (fun pi =>
               (deserializeEntries rest).map (fun tail => pi :: tail))
           else if t == "spice" then
             (deserializeOne .spice fields).bind (fun pi =>
               (deserializeEntries rest).map (fun tail => pi :: tail))
           else deserializeEntries rest
       | some _ => deserializeEntries rest)
  | _ :: _ => .error (.typeError "string indices must be integers")

/-- Embeds ProcessingInputCollection.deserialize (processing_input_file.py
lines 314-332) at the JSON-value level: the previous contents are discarded
and the collection is rebuilt from the decoded entries. -/
def ProcessingInputCollection.deserialize (j : JsonVal) :
    Except PyError ProcessingInputCollection :=
  match j with
  | .arr entries => (deserializeEntries entries).map (fun l => ⟨l⟩)
  | _ => .error (.typeError "json input is not a list")

/-- Claim C10: constructing any variant from zero filenames raises ValueError;
for ScienceInput and AncillaryInput it is the homogeneity message, because the
attribute setter sees empty sets before the explicit empty-argument check,
which only SpiceInput (whose overridden setter never fails) can reach. -/
theorem empty_construction_errors :
    ScienceInput.make [] = .error homogeneityError ∧
    AncillaryInput.make [] = .error homogeneityError ∧
    SpiceInput.make [] = .error emptyInputError ∧
    ∀ files : List String, files ≠ [] →
      SpiceInput.make files = .ok ⟨.spice, files, "sc_attitude", "spice", "predict"⟩ := by
  refine ⟨by decide, by decide, by decide, ?_⟩
  intro files hne
  unfold SpiceInput.make ProcessingInput.make
  cases files with
  | nil => exact absurd rfl hne
  | cons f rest =>
      have hlen : ¬ (f :: rest).length < 1 := by simp
      rw [if_neg hlen]

/-- Claim C9: parse applied to a Path considers only its final segment, so a
valid filename behind directory components parses exactly like the bare
filename. -/
theorem extract_path_uses_final_segment (dir f : String) (hf : f ≠ "")
    (hsep : ∀ c ∈ f.data, c ≠ '/') :
    extract_filename_components (.path (dir ++ "/" ++ f)) =
      extract_filename_components (.str f) := by
  have hp : pathName (dir ++ "/" ++ f) = f := by
    unfold pathName
    have hd : (dir ++ "/" ++ f).data = dir.data ++ '/' :: f.data := by
      rw [String.data_append, String.data_append]
      have : ("/" : String).data = ['/'] := rfl
      rw [this, List.append_assoc]
      rfl
    rw [hd, List.reverse_append, List.reverse_cons]
    have hall : ∀ x ∈ f.data.reverse, (x != '/') = true := by
      intro x hx
      exact bne_iff_ne.mpr (hsep x (List.mem_reverse.mp hx))
    rw [List.append_assoc, List.singleton_append,
      List.takeWhile_append_of_pos hall, List.takeWhile_cons_of_neg (by simp),
      List.append_nil, List.reverse_reverse]
  unfold extract_filename_components
  dsimp only
  rw [hp]

/-- Claim C1: serialize writes the filename list under the key files, but
deserialize reads the key path, so deserializing the output of serialize
raises KeyError for every non-empty collection instead of rebuilding it. -/
theorem roundtrip_raises_key_error (col : ProcessingInputCollection)
    (h : col.processing_input ≠ []) :
    ProcessingInputCollection.deserialize col.serialize = .error (.keyError "path") := by
  obtain ⟨l⟩ := col
  cases l with
  | nil => exact absurd rfl h
  | cons pi rest =>
      unfold ProcessingInputCollection.serialize ProcessingInputCollection.deserialize
      simp only [List.map_cons]
      cases hty : pi.input_type <;>
        simp [ProcessingInput.construct_json_output, deserializeEntries, deserializeOne,
          lookupKey, hty, ProcessingInputType.value, List.find?, Except.bind, Except.map]

/-- Claim C8: a wire entry whose kind tag is none of the three recognized
literals is silently dropped by deserialize, while the surrounding entries
decode exactly as they would without it. -/
theorem unknown_kind_entry_skipped (pre post : List JsonVal) (t : String) (v : JsonVal)
    (h1 : t ≠ "science") (h2 : t ≠ "ancillary") (h3 : t ≠ "spice") :
    ProcessingInputCollection.deserialize
        (.arr (pre ++ (JsonVal.obj [("type", .str t), ("path", v)]) :: post)) =
      ProcessingInputCollection.deserialize (.arr (pre ++ post)) := by
  have key : deserializeEntries (pre ++ (JsonVal.obj [("type", .str t), ("path", v)]) :: post) =
      deserializeEntries (pre ++ post) := by
    induction pre with
    | nil =>
        simp only [List.nil_append]
        conv_lhs => unfold deserializeEntries
        simp [lookupKey, List.find?, h1, h2, h3]
    | cons e pre ih =>
        simp only [List.cons_append]
        cases e with
        | obj fields =>
            unfold deserializeEntries
            simp only [ih]
        | str s => unfold deserializeEntries; rfl
        | arr es => unfold deserializeEntries; rfl
        | other => unfold deserializeEntries; rfl
  unfold ProcessingInputCollection.deserialize
  dsimp only
  rw [key]

theorem dedup_length_eq_one {α : Type} [DecidableEq α] {l : List α} :
    l.dedup.length = 1 ↔ ∃ x, l ≠ [] ∧ ∀ y ∈ l, y = x := by
  rw [List.length_eq_one]
  constructor
  · rintro ⟨x, hx⟩
    refine ⟨x, ?_, ?_⟩
    · intro h0
      rw [h0] at hx
      simp at hx
    · intro y hy
      have hm : y ∈ l.dedup := List.mem_dedup.mpr hy
      rw [hx] at hm
      simpa using hm
  · rintro ⟨x, hne, hall⟩
    refine ⟨x, ?_⟩
    have hnd := l.nodup_dedup
    have hmem : ∀ y ∈ l.dedup, y = x := fun y hy => hall y (List.mem_dedup.mp hy)
    have hxl : x ∈ l := by
      cases l with
      | nil => exact absurd rfl hne
      | cons a t =>
          have ha := hall a (List.mem_cons_self a t)
          rw [← ha]
          exact List.mem_cons_self a t
    have hxd : x ∈ l.dedup := List.mem_dedup.mpr hxl
    cases hd : l.dedup with
    | nil =>
        rw [hd] at hxd
        simp at hxd
    | cons b t2 =>
        have hb : b = x := hmem b (hd ▸ List.mem_cons_self b t2)
        cases t2 with
        | nil => rw [hb]
        | cons c t3 =>
            have hc : c = x := hmem c (hd ▸ by simp)
            rw [hd, hb, hc] at hnd
            simp at hnd

/-- All triples of a non-empty list coincide: the property the per-coordinate
Python set-cardinality check of _set_attributes_from_filenames enforces. -/
theorem triple_dedup_iff (ts : List (String × String × String)) :
    ((ts.map (fun t => t.1)).dedup.length = 1 ∧
     (ts.map (fun t => t.2.1)).dedup.length = 1 ∧
     (ts.map (fun t => t.2.2)).dedup.length = 1) ↔
    ∃ t0, ts ≠ [] ∧ ∀ t ∈ ts, t = t0 := by
  rw [dedup_length_eq_one, dedup_length_eq_one, dedup_length_eq_one]
  constructor
  · rintro ⟨⟨s0, hs1, hs2⟩, ⟨d0, _, hd2⟩, ⟨e0, _, he2⟩⟩
    refine ⟨(s0, d0, e0), ?_, ?_⟩
    · intro h0
      rw [h0] at hs1
      simp at hs1
    · intro t ht
      have h1 := hs2 t.1 (List.mem_map_of_mem _ ht)
      have h2 := hd2 t.2.1 (List.mem_map_of_mem _ ht)
      have h3 := he2 t.2.2 (List.mem_map_of_mem _ ht)
      obtain ⟨ta, tb, tc⟩ := t
      simp only at h1 h2 h3
      simp [h1, h2, h3]
  · rintro ⟨⟨s0, d0, e0⟩, hne, hall⟩
    have hmapne : ∀ g : (String × String × String) → String, ts.map g ≠ [] := by
      intro g h0
      exact hne (List.map_eq_nil.mp h0)
    refine ⟨⟨s0, hmapne _, ?_⟩, ⟨d0, hmapne _, ?_⟩, ⟨e0, hmapne _, ?_⟩⟩ <;>
    · intro y hy
      obtain ⟨t, ht, rfl⟩ := List.mem_map.mp hy
      rw [hall t ht]

/-- Discriminates whether a construction result is a raised ValueError, the
exception class the claim asserts for every inhomogeneous input. -/
def isValueErrorResult (r : Except PyError ProcessingInput) : Bool :=
  match r with
  | .error (.valueError _) => true
  | _ => false

/-- Claim C4, counterexample: one individually valid filename plus one
grammar-invalid filename do not all resolve to one source, data type and
descriptor, yet construction fails with InvalidScienceFileError from the
per-file validator, not with the homogeneity ValueError the claim asserts. -/
theorem mixed_validity_not_value_error :
    ScienceInput.make ["imap_mag_l1a_burst_20210101_20210102_v01-01.cdf", "junk"] =
      .error (.invalidScienceFile
        ("Invalid filename. Expected file to match format: " ++ FILENAME_CONVENTION)) ∧
    isValueErrorResult
      (ScienceInput.make ["imap_mag_l1a_burst_20210101_20210102_v01-01.cdf", "junk"]) = false := by
  constructor
  · decide
  · decide

/-- Claim C4, amended: when every filename individually resolves through its
validator but the resolved source, data type and descriptor triples are not
all identical, ScienceInput and AncillaryInput construction fails with the
homogeneity ValueError and no instance is produced. -/
theorem inhomogeneous_inputs_value_error (ty : ProcessingInputType)
    (hty : ty = .science ∨ ty = .ancillary)
    (files : List String) (ts : List (String × String × String))
    (hres : collectTriples ty files = .ok ts)
    (hnh : ¬ ∃ t0, ts ≠ [] ∧ ∀ t ∈ ts, t = t0) :
    ProcessingInput.make ty files = .error homogeneityError := by
  have hcond : ¬ ((ts.map (fun t => t.1)).dedup.length = 1 ∧
      (ts.map (fun t => t.2.1)).dedup.length = 1 ∧
      (ts.map (fun t => t.2.2)).dedup.length = 1) :=
    fun hc => hnh ((triple_dedup_iff ts).mp hc)
  have hbool : (((ts.map (fun t => t.1)).dedup.length == 1 &&
      (ts.map (fun t => t.2.1)).dedup.length == 1) &&
      (ts.map (fun t => t.2.2)).dedup.length == 1) = false := by
    by_cases h1 : (ts.map (fun t => t.1)).dedup.length = 1 <;>
      by_cases h2 : (ts.map (fun t => t.2.1)).dedup.length = 1 <;>
      by_cases h3 : (ts.map (fun t => t.2.2)).dedup.length = 1 <;>
      simp [h1, h2, h3] <;>
      exact hcond ⟨h1, h2, h3⟩
  rcases hty with rfl | rfl <;>
  · unfold ProcessingInput.make setAttributesFromFilenames
    rw [hres]
    simp only [Except.bind, hbool, Bool.false_eq_true, if_false]

theorem collectTriples_ok_forall {ty : ProcessingInputType} {fs : List String}
    {ts : List (String × String × String)}
    (h : collectTriples ty fs = .ok ts) :
    ∀ f ∈ fs, ∃ t, sourceTriple ty f = .ok t := by
  induction fs generalizing ts with
  | nil => simp
  | cons f rest ih =>
      intro g hg
      unfold collectTriples at h
      cases hs : sourceTriple ty f with
      | error e =>
          rw [hs] at h
          simp [Except.bind] at h
      | ok t =>
          rw [hs] at h
          simp only [Except.bind] at h
          cases hr : collectTriples ty rest with
          | error e =>
              rw [hr] at h
              simp [Except.map] at h
          | ok ts2 =>
              rcases List.mem_cons.mp hg with rfl | hg2
              · exact ⟨t, hs⟩
              · exact ih hr g hg2

theorem make_science_ok_parts {files : List String} {pi : ProcessingInput}
    (h : ScienceInput.make files = .ok pi) :
    pi.filename_list = files ∧ files ≠ [] ∧
    ∀ f ∈ files, ∃ m, ScienceFilepathManager.make (.str f) = .ok m := by
  unfold ScienceInput.make ProcessingInput.make at h
  cases hsa : setAttributesFromFilenames .science files with
  | error e =>
      rw [hsa] at h
      simp [Except.bind] at h
  | ok t =>
      rw [hsa] at h
      simp only [Except.bind] at h
      split at h
      case _ => simp at h
      case _ hlen =>
        simp only [Except.ok.injEq] at h
        subst h
        refine ⟨rfl, ?_, ?_⟩
        · intro h0
          subst h0
          simp at hlen
        · unfold setAttributesFromFilenames at hsa
          cases hct : collectTriples .science files with
          | error e =>
              rw [hct] at hsa
              simp [Except.bind] at hsa
          | ok ts =>
              intro f hf
              obtain ⟨tr, htr⟩ := collectTriples_ok_forall hct f hf
              unfold sourceTriple at htr
              cases hm : ScienceFilepathManager.make (.str f) with
              | error e =>
                  rw [hm] at htr
                  simp [Except.map] at htr
              | ok m => exact ⟨m, rfl⟩

theorem sfm_ok_start_date_some {f : String} {m : ScienceFilepathManager}
    (h : ScienceFilepathManager.make (.str f) = .ok m) :
    ∃ d, strptimeYmd m.start_date = some d ∧ startDateOf f = some d := by
  obtain ⟨c, hc, hm, hval⟩ := sfm_make_ok h
  have hviol := (violations_eq_nil_iff _).mp ((validate_eq_empty_iff _).mp hval) .badStartDate
  have hvd : is_valid_date m.startdate = true := by
    simpa [violationHolds] using hviol
  unfold is_valid_date at hvd
  obtain ⟨d, hd⟩ := Option.isSome_iff_exists.mp hvd
  refine ⟨d, hd, ?_⟩
  unfold startDateOf
  rw [hc]
  rw [hm] at hd
  exact hd

theorem stepDate_eq_startDateOf {f : String} {m : ScienceFilepathManager}
    (h : ScienceFilepathManager.make (.str f) = .ok m) :
    ∃ d, stepDate f = .ok d ∧ startDateOf f = some d := by
  obtain ⟨d, hd, hsd⟩ := sfm_ok_start_date_some h
  refine ⟨d, ?_, hsd⟩
  unfold stepDate
  rw [h]
  simp [Except.bind, hd]

theorem foldlM_dates_ok (fs : List String) (acc : Option PyDate × Option PyDate)
    (h : ∀ f ∈ fs, ∃ d, stepDate f = .ok d ∧ startDateOf f = some d) :
    ∃ ds : List PyDate, fs.map startDateOf = ds.map some ∧
      fs.foldlM (fun acc file => (stepDate file).map (fun d => updateRange acc d)) acc
        = .ok (ds.foldl updateRange acc) := by
  induction fs generalizing acc with
  | nil => exact ⟨[], rfl, rfl⟩
  | cons f rest ih =>
      obtain ⟨d, hd, hsd⟩ := h f (List.mem_cons_self f rest)
      obtain ⟨ds, hmap, hfold⟩ := ih (updateRange acc d)
        (fun g hg => h g (List.mem_cons_of_mem f hg))
      refine ⟨d :: ds, ?_, ?_⟩
      · simp [hsd, hmap]
      · rw [List.foldlM_cons, hd]
        have hres : rest.foldlM
            (fun acc file => (stepDate file).map (fun d => updateRange acc d))
            (updateRange acc d) = .ok ((d :: ds).foldl updateRange acc) := by
          rw [hfold, List.foldl_cons]
        exact hres

theorem foldl_updateRange_bounds (ds : List PyDate) (e l : PyDate) :
    ∃ lo hi, ds.foldl updateRange (some e, some l) = (some lo, some hi) ∧
      (lo = e ∨ lo ∈ ds) ∧ (hi = l ∨ hi ∈ ds) ∧ PyDate.Le lo e ∧ PyDate.Le l hi ∧
      ∀ d ∈ ds, PyDate.Le lo d ∧ PyDate.Le d hi := by
  induction ds generalizing e l with
  | nil =>
      exact ⟨e, l, rfl, Or.inl rfl, Or.inl rfl, PyDate.le_refl e, PyDate.le_refl l, by simp⟩
  | cons d ds ih =>
      obtain ⟨lo, hi, hfold, hloMem, hhiMem, hloLe, hhiLe, hbounds⟩ :=
        ih (if PyDate.Lt d e then d else e) (if PyDate.Lt l d then d else l)
      have hstep : updateRange (some e, some l) d =
          (some (if PyDate.Lt d e then d else e), some (if PyDate.Lt l d then d else l)) := by
        unfold updateRange
        dsimp only
        rw [apply_ite some, apply_ite some]
      have he'e : PyDate.Le (if PyDate.Lt d e then d else e) e := by
        by_cases hlt : PyDate.Lt d e
        · rw [if_pos hlt]
          exact PyDate.le_of_lt hlt
        · rw [if_neg hlt]
          exact PyDate.le_refl e
      have he'd : PyDate.Le (if PyDate.Lt d e then d else e) d := by
        by_cases hlt : PyDate.Lt d e
        · rw [if_pos hlt]
          exact PyDate.le_refl d
        · rw [if_neg hlt]
          exact PyDate.le_of_not_lt hlt
      have hll' : PyDate.Le l (if PyDate.Lt l d then d else l) := by
        by_cases hlt : PyDate.Lt l d
        · rw [if_pos hlt]
          exact PyDate.le_of_lt hlt
        · rw [if_neg hlt]
          exact PyDate.le_refl l
      have hdl' : PyDate.Le d (if PyDate.Lt l d then d else l) := by
        by_cases hlt : PyDate.Lt l d
        · rw [if_pos hlt]
          exact PyDate.le_refl d
        · rw [if_neg hlt]
          exact PyDate.le_of_not_lt hlt
      refine ⟨lo, hi, ?_, ?_, ?_, ?_, ?_, ?_⟩
      · rw [List.foldl_cons, hstep]
        exact hfold
      · rcases hloMem with h | h
        · by_cases hlt : PyDate.Lt d e
          · right
            rw [h, if_pos hlt]
            exact List.mem_cons_self d ds
          · left
            rw [h, if_neg hlt]
        · right
          exact List.mem_cons_of_mem d h
      · rcases hhiMem with h | h
        · by_cases hlt : PyDate.Lt l d
          · right
            rw [h, if_pos hlt]
            exact List.mem_cons_self d ds
          · left
            rw [h, if_neg hlt]
        · right
          exact List.mem_cons_of_mem d h
      · exact PyDate.le_trans hloLe he'e
      · exact PyDate.le_trans hll' hhiLe
      · intro d2 hd2
        rcases List.mem_cons.mp hd2 with rfl | hd2
        · exact ⟨PyDate.le_trans hloLe he'd, PyDate.le_trans hdl' hhiLe⟩
        · exact hbounds d2 hd2

/-- Claim C7: for a successfully constructed ScienceInput, get_time_range
returns the pair of the earliest and the latest start date of the member
files (end dates are never consulted: the result is a function of the start
dates alone). -/
theorem science_time_range (files : List String) (pi : ProcessingInput)
    (h : ScienceInput.make files = .ok pi) :
    ∃ ds : List PyDate, files.map startDateOf = ds.map some ∧
      ∃ lo hi, ScienceInput.get_time_range pi = .ok (some lo, some hi) ∧
        lo ∈ ds ∧ hi ∈ ds ∧ ∀ d ∈ ds, PyDate.Le lo d ∧ PyDate.Le d hi := by
  obtain ⟨hfl, hne, hval⟩ := make_science_ok_parts h
  have hstep : ∀ f ∈ files, ∃ d, stepDate f = .ok d ∧ startDateOf f = some d := by
    intro f hf
    obtain ⟨m, hm⟩ := hval f hf
    exact stepDate_eq_startDateOf hm
  obtain ⟨ds, hmap, hfold⟩ := foldlM_dates_ok files (none, none) hstep
  refine ⟨ds, hmap, ?_⟩
  unfold ScienceInput.get_time_range
  rw [hfl, hfold]
  cases ds with
  | nil =>
      exfalso
      apply hne
      have := congrArg List.length hmap
      simpa using this
  | cons d0 dtail =>
      have hhead : (d0 :: dtail).foldl updateRange (none, none) =
          dtail.foldl updateRange (some d0, some d0) := by
        rw [List.foldl_cons]
        rfl
      rw [hhead]
      obtain ⟨lo, hi, hfold2, hloMem, hhiMem, hloLe, hhiLe, hbounds⟩ :=
        foldl_updateRange_bounds dtail d0 d0
      refine ⟨lo, hi, by rw [hfold2], ?_, ?_, ?_⟩
      · rcases hloMem with rfl | hm
        · exact List.mem_cons_self lo dtail
        · exact List.mem_cons_of_mem d0 hm
      · rcases hhiMem with rfl | hm
        · exact List.mem_cons_self hi dtail
        · exact List.mem_cons_of_mem d0 hm
      · intro d hd
        rcases List.mem_cons.mp hd with rfl | hd2
        · exact ⟨hloLe, hhiLe⟩
        · exact hbounds d hd2

theorem roundtrip_raises_key_error_witness :
    ScienceInput.make ["imap_mag_l1a_burst_20210101_20210102_v01-01.cdf"] =
      .ok ⟨.science, ["imap_mag_l1a_burst_20210101_20210102_v01-01.cdf"],
        "mag", "l1a", "burst"⟩ ∧
    ProcessingInputCollection.deserialize
      (ProcessingInputCollection.serialize
        ⟨[⟨.science, ["imap_mag_l1a_burst_20210101_20210102_v01-01.cdf"],
          "mag", "l1a", "burst"⟩]⟩) = .error (.keyError "path") :=
  ⟨by decide, roundtrip_raises_key_error _ (by decide)⟩

theorem c3_storage_path_witness :
    (∃ c, extract_filename_components
        (.str "imap_mag_l1a_burst_20210101_20210102_v01-01.cdf") = .ok c ∧
      (managerOfComponents "imap_mag_l1a_burst_20210101_20210102_v01-01.cdf"
        ⟨"imap", "mag", "l1a", "burst", "20210101", "20210102", "v01-01", "cdf"⟩).upload_path =
        c.mission ++ "/" ++ c.instrument ++ "/" ++ c.datalevel ++ "/" ++
        (c.startdate.take 4) ++ "/" ++ ((c.startdate.drop 4).take 2) ++ "/" ++
        "imap_mag_l1a_burst_20210101_20210102_v01-01.cdf") ∧
    (managerOfComponents "imap_mag_l1a_burst_20210101_20210102_v01-01.cdf"
      ⟨"imap", "mag", "l1a", "burst", "20210101", "20210102", "v01-01", "cdf"⟩).upload_path =
      "imap/mag/l1a/2021/01/imap_mag_l1a_burst_20210101_20210102_v01-01.cdf" :=
  ⟨c3_storage_path _ _ (by decide), by decide⟩

theorem inhomogeneous_inputs_value_error_witness :
    ProcessingInput.make .science
      ["imap_mag_l1a_burst_20210101_20210102_v01-01.cdf",
       "imap_mag_l1a_norm_20210101_20210102_v01-01.cdf"] = .error homogeneityError :=
  inhomogeneous_inputs_value_error .science (Or.inl rfl) _
    [("mag", "l1a", "burst"), ("mag", "l1a", "norm")] (by decide)
    (by
      rintro ⟨t0, -, hall⟩
      have h1 := hall ("mag", "l1a", "burst") (by decide)
      have h2 := hall ("mag", "l1a", "norm") (by decide)
      rw [← h2] at h1
      exact absurd h1 (by decide))

/-- A concrete manager with data level l0 and extension pkts, every other
field legal. -/
def l0PktsManager : ScienceFilepathManager :=
  ⟨"imap_mag_l0_raw_20210101_20210102_v01-01.pkts",
    "imap", "mag", "l0", "raw", "20210101", "20210102", "v01-01", "pkts"⟩

theorem validate_level_extension_pairing_witness :
    (l0PktsManager.data_level = "l0" →
      (l0PktsManager.validate_filename = "" ↔ l0PktsManager.extension = "pkts")) ∧
    (l0PktsManager.data_level ≠ "l0" →
      (l0PktsManager.validate_filename = "" ↔ l0PktsManager.extension = "cdf")) :=
  validate_level_extension_pairing l0PktsManager (by decide) (by decide) (by decide)
    (by decide) (by decide) (by decide) (by decide)

/-- A concrete manager parsed from a grammar-conforming filename whose
instrument is not enumerated and whose extension contradicts its level. -/
def badFieldsManager : ScienceFilepathManager :=
  managerOfComponents "imap_sdc_l1a_burst_20210101_20210102_v01-01.pkts"
    ⟨"imap", "sdc", "l1a", "burst", "20210101", "20210102", "v01-01", "pkts"⟩

theorem make_reports_all_violations_witness :
    ScienceFilepathManager.make (.str "imap_sdc_l1a_burst_20210101_20210102_v01-01.pkts") =
      .error (.invalidScienceFile (joinAll ((violations badFieldsManager).map
        (violationMessage badFieldsManager)))) ∧
    ∀ v : Violation, v ∈ violations badFieldsManager ↔
      violationHolds badFieldsManager v = true :=
  make_reports_all_violations "imap_sdc_l1a_burst_20210101_20210102_v01-01.pkts"
    ⟨"imap", "sdc", "l1a", "burst", "20210101", "20210102", "v01-01", "pkts"⟩
    (by decide) (by decide)

theorem science_time_range_witness :
    (∃ ds : List PyDate,
      ["imap_mag_l1a_norm_20240312_20240313_v01-01.cdf",
       "imap_mag_l1a_norm_20240310_20240311_v01-01.cdf"].map startDateOf = ds.map some ∧
      ∃ lo hi, ScienceInput.get_time_range
          ⟨.science, ["imap_mag_l1a_norm_20240312_20240313_v01-01.cdf",
            "imap_mag_l1a_norm_20240310_20240311_v01-01.cdf"], "mag", "l1a", "norm"⟩ =
          .ok (some lo, some hi) ∧
        lo ∈ ds ∧ hi ∈ ds ∧ ∀ d ∈ ds, PyDate.Le lo d ∧ PyDate.Le d hi) ∧
    ScienceInput.get_time_range
      ⟨.science, ["imap_mag_l1a_norm_20240312_20240313_v01-01.cdf",
        "imap_mag_l1a_norm_20240310_20240311_v01-01.cdf"], "mag", "l1a", "norm"⟩ =
      .ok (some ⟨2024, 3, 10⟩, some ⟨2024, 3, 12⟩) :=
  ⟨science_time_range _ _ (by decide), by decide⟩

theorem unknown_kind_entry_skipped_witness :
    ProcessingInputCollection.deserialize
      (.arr ([JsonVal.obj [("type", .str "science"),
          ("path", .arr [.str "imap_mag_l1a_burst_20210101_20210102_v01-01.cdf"])]] ++
        (JsonVal.obj [("type", .str "mystery"), ("path", .arr [])]) :: [])) =
      ProcessingInputCollection.deserialize
        (.arr ([JsonVal.obj [("type", .str "science"),
          ("path", .arr [.str "imap_mag_l1a_burst_20210101_20210102_v01-01.cdf"])]] ++ [])) ∧
    ProcessingInputCollection.deserialize
      (.arr [JsonVal.obj [("type", .str "science"),
        ("path", .arr [.str "imap_mag_l1a_burst_20210101_20210102_v01-01.cdf"])]]) =
      .ok ⟨[⟨.science, ["imap_mag_l1a_burst_20210101_20210102_v01-01.cdf"],
        "mag", "l1a", "burst"⟩]⟩ :=
  ⟨unknown_kind_entry_skipped _ _ "mystery" (.arr []) (by decide) (by decide) (by decide),
    by decide⟩

theorem extract_path_uses_final_segment_witness :
    extract_filename_components
      (.path ("/test" ++ "/" ++ "imap_mag_l1a_burst_20210101_20210102_v01-01.cdf")) =
      extract_filename_components (.str "imap_mag_l1a_burst_20210101_20210102_v01-01.cdf") :=
  extract_path_uses_final_segment "/test" _ (by decide) (by decide)

theorem empty_construction_errors_witness :
    SpiceInput.make ["naif0012.tls"] =
      .ok ⟨.spice, ["naif0012.tls"], "sc_attitude", "spice", "predict"⟩ :=
  empty_construction_errors.2.2.2 _ (by decide)
